import Mathlib

/-!
Verification of the discox role self-assignment core (`bot/base.py`).

The Python code is shallowly embedded: guild/member state becomes explicit
values, the `Roles` methods become pure functions threading that state, and
the interactive `RoleMenu` / button callbacks become functions producing the
new state together with a trace of the remote calls they perform.  Remote
calls that would raise an unhandled Python exception (for example
`add_roles(None)` after a failed name lookup, or acknowledging the same
interaction twice) are modelled as an absent result (`none`) or a `crashed`
flag carrying the trace produced up to that point.
-/

namespace Discox

/-- Embedding of Python `str.lower()` (ASCII case folding, as exercised by the
repository's role names). -/
def pyLower (s : String) : String := String.mk (s.data.map Char.toLower)

/-- Code-point lexicographic strict comparison on character lists, as Python
compares strings. -/
def charListLt : List Char → List Char → Bool
  | [], [] => false
  | [], _ :: _ => true
  | _ :: _, [] => false
  | a :: as, b :: bs =>
    if a.val < b.val then true
    else if b.val < a.val then false
    else charListLt as bs

/-- Embedding of `s <= t` for strings, code-point order (Python's comparison). -/
def strLe (s t : String) : Bool := !(charListLt t.data s.data)

/-- A guild role: its name, its colour and the ids of the members holding it. -/
structure Role where
  name : String
  colour : Nat
  members : List Nat
deriving DecidableEq

/-- The remote guild state: the list of its roles, in guild order. -/
structure GuildState where
  roles : List Role
deriving DecidableEq

/-- The `Roles` class-level configuration: whitelist (canonical casings),
role colour and the per-user maximum number of whitelisted roles. -/
structure RoleConfig where
  whitelist : List String
  roleColour : Nat
  maxRoles : Nat
deriving DecidableEq

/-- Embedding of `Roles.getRoleByName` / `RoleView.getRoleByName`: first guild role whose
name matches exactly. -/
def getRoleByName (g : GuildState) (roleName : String) : Option Role :=
  g.roles.find? (fun r => r.name == roleName)

/-- Embedding of `Roles.getAuthorRolesNames`: names of the roles the author holds. -/
def getAuthorRolesNames (g : GuildState) (author : Nat) : List String :=
  (g.roles.filter (fun r => r.members.contains author)).map Role.name

/-- Embedding of `Roles.getGuildRolesNames`. -/
def getGuildRolesNames (g : GuildState) : List String :=
  g.roles.map Role.name

/-- Embedding of `list(map(lambda x: x.lower(), xs))`. -/
def lowerAll (xs : List String) : List String := xs.map pyLower

/-- Embedding of `Roles.isWhitelisted`. -/
def isWhitelisted (cfg : RoleConfig) (argument : String) : Bool :=
  (lowerAll cfg.whitelist).contains (pyLower argument)

/-- Embedding of `Roles.authorHasRole`. -/
def authorHasRole (g : GuildState) (author : Nat) (argument : String) : Bool :=
  (lowerAll (getAuthorRolesNames g author)).contains (pyLower argument)

/-- Embedding of `Roles.guildHasRole`. -/
def guildHasRole (g : GuildState) (argument : String) : Bool :=
  (lowerAll (getGuildRolesNames g)).contains (pyLower argument)

/-- Embedding of `Roles.hasMaxRoles`: counts the author's roles whose names occur
(case-sensitively, `x in self.whitelist`) in the whitelist. -/
def hasMaxRoles (cfg : RoleConfig) (g : GuildState) (author : Nat) : Bool :=
  decide (cfg.maxRoles ≤
    ((getAuthorRolesNames g author).filter (fun x => cfg.whitelist.contains x)).length)

/-- First whitelist entry whose lowering equals `argLower`
(`whitelist[lowered.index(argument.lower())]`). -/
def canonicalLookup (wl : List String) (argLower : String) : Option String :=
  match wl with
  | [] => none
  | w :: ws => if pyLower w == argLower then some w else canonicalLookup ws argLower

/-- Canonical casing resolution used by `addRole` / `removeRole`. -/
def canonicalName (cfg : RoleConfig) (argument : String) : Option String :=
  canonicalLookup cfg.whitelist (pyLower argument)

/-- Embedding of `member.add_roles(role)`: the platform does not double-assign a held role. -/
def roleAddMember (r : Role) (author : Nat) : Role :=
  if r.members.contains author then r else { r with members := r.members ++ [author] }

/-- Embedding of `member.remove_roles(role)`: drops the member (a no-op if not held). -/
def roleRemoveMember (r : Role) (author : Nat) : Role :=
  { r with members := r.members.filter (fun m => m != author) }

/-- Update the first role with the given exact name (the object returned by
`getRoleByName`); leaves the guild unchanged when no such role exists. -/
def updateFirstRole (roles : List Role) (roleName : String) (f : Role → Role) :
    List Role :=
  match roles with
  | [] => []
  | r :: rs =>
    if r.name == roleName then f r :: rs else r :: updateFirstRole rs roleName f

/-- Embedding of `role.delete()` on the first role with the given exact name. -/
def deleteFirstRole (roles : List Role) (roleName : String) : List Role :=
  match roles with
  | [] => []
  | r :: rs => if r.name == roleName then rs else r :: deleteFirstRole rs roleName

/-- Embedding of `guild.create_role(name=..., colour=...)`: a fresh, memberless role. -/
def createRole (cfg : RoleConfig) (g : GuildState) (roleName : String) : GuildState :=
  { roles := g.roles ++ [{ name := roleName, colour := cfg.roleColour, members := [] }] }

/-- The distinct result messages the role operations return. -/
inductive RoleResult where
  | notWhitelisted (argument : String)
  | maxRolesReached
  | alreadyHasRole (argument : String)
  | doesNotHaveRole (argument : String)
  | added (canonical : String)
  | removed (canonical : String)
  | cannotAdd
deriving DecidableEq

/-- Embedding of `Roles.addRole`.  `none` models an unhandled exception
(`add_roles(None)` after an exact-name lookup that found nothing). -/
def addRole (cfg : RoleConfig) (g : GuildState) (author : Nat) (argument : String) :
    Option (RoleResult × GuildState) :=
  if !isWhitelisted cfg argument then some (.notWhitelisted argument, g)
  else if hasMaxRoles cfg g author then some (.maxRolesReached, g)
  else if authorHasRole g author argument then some (.alreadyHasRole argument, g)
  else if guildHasRole g argument then
    match canonicalName cfg argument with
    | none => none
    | some canon =>
      match getRoleByName g canon with
      | none => none
      | some _ =>
        some (.added canon,
          { roles := updateFirstRole g.roles canon (fun r => roleAddMember r author) })
  else if !guildHasRole g argument then
    match canonicalName cfg argument with
    | none => none
    | some canon =>
      let g1 := createRole cfg g canon
      match getRoleByName g1 canon with
      | none => none
      | some _ =>
        some (.added canon,
          { roles := updateFirstRole g1.roles canon (fun r => roleAddMember r author) })
  else some (.cannotAdd, g)

/-- Embedding of `Roles.removeRole`.  `none` models an unhandled exception
(`remove_roles(None)` after an exact-name lookup that found nothing). -/
def removeRole (cfg : RoleConfig) (g : GuildState) (author : Nat) (argument : String) :
    Option (RoleResult × GuildState) :=
  if !isWhitelisted cfg argument then some (.notWhitelisted argument, g)
  else if !authorHasRole g author argument then some (.doesNotHaveRole argument, g)
  else
    match canonicalName cfg argument with
    | none => none
    | some canon =>
      match getRoleByName g canon with
      | none => none
      | some _ =>
        let g1 : GuildState :=
          { roles := updateFirstRole g.roles canon (fun r => roleRemoveMember r author) }
        match getRoleByName g1 canon with
        | none => none
        | some r1 =>
          if r1.members.length == 0 then
            some (.removed canon, { roles := deleteFirstRole g1.roles canon })
          else
            some (.removed canon, g1)

/-- One line of the `getLeaderboard` table. -/
structure LeaderboardEntry where
  role : String
  count : Nat
deriving DecidableEq

/-- One step of `Roles.getLeaderboard`'s collection loop: look the name up in
`lookupIn` (`getRoleByName`) and keep it when whitelisted (`role in
self.whitelist`, exact match) with at least one member. -/
def lbEntry (cfg : RoleConfig) (lookupIn : List Role) (n : String) :
    Option LeaderboardEntry :=
  match lookupIn.find? (fun r => r.name == n) with
  | some r =>
    if cfg.whitelist.contains n && decide (0 < r.members.length) then
      some { role := n, count := r.members.length }
    else none
  | none => none

/-- The body of `Roles.getLeaderboard`'s collection loop over the guild's
role names. -/
def entriesOver (cfg : RoleConfig) (lookupIn : List Role) (names : List String) :
    List LeaderboardEntry :=
  names.filterMap (lbEntry cfg lookupIn)

/-- The unsorted leaderboard rows, in guild role order. -/
def leaderboardEntries (cfg : RoleConfig) (g : GuildState) : List LeaderboardEntry :=
  entriesOver cfg g.roles (getGuildRolesNames g)

/-- Insert into an already sorted list, keeping the inserted (earlier)
element ahead of entries it ties with: the insertion step of a stable sort. -/
def insertSorted (le : α → α → Bool) (e : α) : List α → List α
  | [] => [e]
  | x :: xs => if le e x then e :: x :: xs else x :: insertSorted le e xs

/-- Stable insertion sort; agrees with Python's (stable) `sorted`. -/
def sortedBy (le : α → α → Bool) : List α → List α
  | [] => []
  | e :: xs => insertSorted le e (sortedBy le xs)

/-- Embedding of `sorted(leaderboard, key=lambda d: d["count"], reverse=True)`: stable,
descending by count. -/
def sortByCountDesc (l : List LeaderboardEntry) : List LeaderboardEntry :=
  sortedBy (fun a b => decide (b.count ≤ a.count)) l

/-- The two shapes of `getLeaderboard`'s reply: the fixed empty-state message
or the sorted table. -/
inductive LeaderboardResult where
  | empty
  | board (entries : List LeaderboardEntry)
deriving DecidableEq

/-- Embedding of `Roles.getLeaderboard`. -/
def getLeaderboard (cfg : RoleConfig) (g : GuildState) : LeaderboardResult :=
  let leaderboard := leaderboardEntries cfg g
  if leaderboard == [] then .empty
  else .board (sortByCountDesc leaderboard)

/-- A select-menu option (label shown, value reported on selection). -/
structure MenuOption where
  label : String
  value : String
deriving DecidableEq

/-- The placeholder entry for an empty candidate list. -/
def noOptionsAvailable : MenuOption := ⟨"No Options Available", "No Options Available"⟩

/-- The prepended previous-page entry. -/
def previousPageOption : MenuOption := ⟨"<-- Previous Page", "Previous Page"⟩

/-- The appended next-page entry. -/
def nextPageOption : MenuOption := ⟨"Next Page -->", "Next Page"⟩

/-- Python list indexing `wl[i]`, including negative-index wrap-around;
`none` is an `IndexError`. -/
def pyGet (wl : List String) (i : Int) : Option String :=
  if 0 ≤ i then wl[i.toNat]?
  else if 0 ≤ i + wl.length then wl[(i + (wl.length : Int)).toNat]?
  else none

/-- The `for i in range(index, index+23)` loop of `RoleMenu.regenerateMenu`:
appends one numbered option per present entry, records an `IndexError` in the
flag (the loop `pass`es and keeps going). -/
def menuBodyAux (wl : List String) (i : Int) : Nat → List MenuOption × Bool
  | 0 => ([], false)
  | c + 1 =>
    let rest := menuBodyAux wl (i + 1) c
    match pyGet wl i with
    | some role => (⟨toString (i + 1) ++ ". " ++ role, role⟩ :: rest.1, rest.2)
    | none => (rest.1, true)

/-- The 23-iteration option loop starting at `index`. -/
def menuBody (wl : List String) (index : Int) : List MenuOption × Bool :=
  menuBodyAux wl index 23

/-- Embedding of `RoleMenu.regenerateMenu`: placeholder when the whitelist is empty, a
previous-page entry when `index > 0`, the 23-entry window, and a next-page
entry when no `IndexError` occurred. -/
def regenerateMenu (wl : List String) (index : Int) : List MenuOption :=
  let o0 : List MenuOption := if wl.length == 0 then [noOptionsAvailable] else []
  let o1 := if 0 < index then o0 ++ [previousPageOption] else o0
  let body := menuBody wl index
  let o2 := o1 ++ body.1
  if body.2 then o2 else o2 ++ [nextPageOption]

/-- The values of a list of options (what a selection reports). -/
def optionValues (opts : List MenuOption) : List String :=
  opts.map MenuOption.value

/-- The mutable state of a `RoleMenu` selector. -/
structure MenuState where
  whitelist : List String
  index : Int
  page : Int
  options : List MenuOption
deriving DecidableEq

/-- Python `sorted` on strings (stable; code-point order). -/
def sortStrings (l : List String) : List String := sortedBy strLe l

/-- Embedding of `RoleMenu.__init__`: sorts the candidate list and renders page 1. -/
def mkRoleMenu (wl : List String) : MenuState :=
  let sw := sortStrings wl
  { whitelist := sw, index := 0, page := 1, options := regenerateMenu sw 0 }

/-- Embedding of `RoleMenu.NextPage`. -/
def menuNextPage (m : MenuState) : MenuState :=
  let i := m.index + 23
  { m with index := i, page := m.page + 1, options := regenerateMenu m.whitelist i }

/-- Embedding of `RoleMenu.PreviousPage`. -/
def menuPreviousPage (m : MenuState) : MenuState :=
  let i := m.index - 23
  { m with index := i, page := m.page - 1, options := regenerateMenu m.whitelist i }

/-- The observable remote calls a callback performs, in order. -/
inductive Ev where
  | editMessage
  | ackInteraction
  | createdRole (roleName : String)
  | assignedRole (author : Nat) (roleName : String)
  | removedRole (author : Nat) (roleName : String)
  | deletedRole (roleName : String)
  | resetViewToMain
deriving DecidableEq

/-- Result of running `RoleMenu.callback`: final guild and menu state, the
trace of remote calls, and whether an unhandled exception interrupted it. -/
structure CbOut where
  g : GuildState
  menu : MenuState
  events : List Ev
  crashed : Bool
deriving DecidableEq

/-- Embedding of `interaction.response.defer()`: acknowledges once; a second call raises
`InteractionResponded` (no event, crash). -/
def ackOutcome (acks : Nat) : List Ev × Bool :=
  if 1 ≤ acks then ([], true) else ([Ev.ackInteraction], false)

/-- The `else` branch of `RoleMenu.callback` (the `action` dispatch), entered
with the events and acknowledgement count accumulated so far. -/
def menuActionBranch (cfg : RoleConfig) (g : GuildState) (menu : MenuState)
    (viewAction : String) (authorId : Nat) (selection : String)
    (evs : List Ev) (acks : Nat) : CbOut :=
  if viewAction == "Remove" then
    if selection == "No Options Available" then
      let a := ackOutcome acks
      ⟨g, menu, evs ++ [Ev.resetViewToMain, Ev.editMessage] ++ a.1, a.2⟩
    else
      match getRoleByName g selection with
      | none => ⟨g, menu, evs, true⟩
      | some _ =>
        let g1 : GuildState :=
          { roles := updateFirstRole g.roles selection (fun r => roleRemoveMember r authorId) }
        let evs1 := evs ++ [Ev.removedRole authorId selection]
        match getRoleByName g1 selection with
        | none => ⟨g1, menu, evs1, true⟩
        | some r1 =>
          let step :=
            if r1.members.length == 0 then
              (GuildState.mk (deleteFirstRole g1.roles selection),
                evs1 ++ [Ev.deletedRole selection])
            else (g1, evs1)
          let a := ackOutcome acks
          ⟨step.1, menu, step.2 ++ [Ev.resetViewToMain, Ev.editMessage] ++ a.1, a.2⟩
  else if viewAction == "Add" then
    let heldRoles := g.roles.filter (fun r =>
      r.members.contains authorId && (lowerAll cfg.whitelist).contains (pyLower r.name))
    let atMax := decide (cfg.maxRoles ≤ heldRoles.length)
    let m :=
      if atMax then
        let a := ackOutcome acks
        (evs ++ [Ev.resetViewToMain, Ev.editMessage] ++ a.1,
          if a.2 then acks else acks + 1, a.2)
      else (evs, acks, false)
    if m.2.2 then ⟨g, menu, m.1, true⟩
    else
      let step :=
        if !((heldRoles.map Role.name).contains (pyLower selection)) then
          (createRole cfg g selection, m.1 ++ [Ev.createdRole selection])
        else (g, m.1)
      match getRoleByName step.1 selection with
      | none => ⟨step.1, menu, step.2, true⟩
      | some _ =>
        let gC : GuildState :=
          { roles := updateFirstRole step.1.roles selection (fun r => roleAddMember r authorId) }
        let evsC := step.2 ++ [Ev.assignedRole authorId selection]
        let a := ackOutcome m.2.1
        ⟨gC, menu, evsC ++ [Ev.resetViewToMain, Ev.editMessage] ++ a.1, a.2⟩
  else ⟨g, menu, evs, false⟩

/-- Embedding of `RoleMenu.callback`.  Note the source's dangling `else`: the next-page
block is a separate `if`, so a "Next Page" selection also falls into the
`action` dispatch afterwards. -/
def menuCallback (cfg : RoleConfig) (g : GuildState) (menu : MenuState)
    (viewAction : String) (authorId invokerId : Nat) (selection : String) : CbOut :=
  if authorId ≠ invokerId then ⟨g, menu, [], false⟩
  else
    let s1 : MenuState × List Ev × Nat :=
      if selection == "Next Page" then
        (menuNextPage menu, [Ev.editMessage, Ev.ackInteraction], 1)
      else (menu, [], 0)
    if selection == "Previous Page" then
      ⟨g, menuPreviousPage s1.1, s1.2.1 ++ [Ev.editMessage, Ev.ackInteraction], false⟩
    else
      menuActionBranch cfg g s1.1 viewAction authorId selection s1.2.1 s1.2.2

/-- Result of a button callback that does not touch the guild: its trace. -/
structure ButtonOut where
  events : List Ev
  crashed : Bool
deriving DecidableEq

/-- Embedding of `BackButton.callback`: authorization guard, reset to the main menu,
one edit, one acknowledgement. -/
def backButtonCallback (authorId invokerId : Nat) : ButtonOut :=
  if authorId ≠ invokerId then ⟨[], false⟩
  else ⟨[Ev.resetViewToMain, Ev.editMessage, Ev.ackInteraction], false⟩

/-- Result of an action button callback: the new view action, the freshly
built selector (if any), and the trace. -/
structure ActionButtonOut where
  viewAction : String
  newMenu : Option MenuState
  events : List Ev
deriving DecidableEq

/-- Embedding of `RolesButton.callback` (shared by the Add/Remove/List/Your Roles/
Leaderboard/Info buttons): restricts the candidate list to the invoker's
whitelisted roles for Remove, installs a fresh `RoleMenu`, edits, acknowledges. -/
def rolesButtonCallback (cfg : RoleConfig) (g : GuildState) (buttonAction : String)
    (viewAction : String) (authorId invokerId : Nat) : ActionButtonOut :=
  if authorId ≠ invokerId then ⟨viewAction, none, []⟩
  else
    let wl :=
      if buttonAction == "Remove" then
        ((g.roles.filter (fun r =>
          r.members.contains authorId &&
            (lowerAll cfg.whitelist).contains (pyLower r.name))).map Role.name)
      else cfg.whitelist
    ⟨buttonAction, some (mkRoleMenu wl), [Ev.editMessage, Ev.ackInteraction]⟩

/-- The menu page states reachable from the initial page by selections whose
value triggers the next-page / previous-page branch of the callback. -/
inductive MenuReachable (wl : List String) : Int → Int → Prop where
  | init : MenuReachable wl 0 1
  | next {i p : Int} : MenuReachable wl i p →
      (optionValues (regenerateMenu wl i)).contains "Next Page" = true →
      MenuReachable wl (i + 23) (p + 1)
  | prev {i p : Int} : MenuReachable wl i p →
      (optionValues (regenerateMenu wl i)).contains "Previous Page" = true →
      MenuReachable wl (i - 23) (p - 1)

/-- Modelled from the spec: the count of held whitelisted roles compared
case-insensitively, as section 4.2's "all case-insensitive over role names"
describes `hasMaxRoles` (the code's `hasMaxRoles` is the authority; this
definition exists to compare the spec's words against it). -/
def hasMaxRolesCI (cfg : RoleConfig) (g : GuildState) (author : Nat) : Bool :=
  decide (cfg.maxRoles ≤
    ((getAuthorRolesNames g author).filter (fun x =>
      (lowerAll cfg.whitelist).contains (pyLower x))).length)

/-! ### Helper lemmas -/

theorem contains_true_iff {α : Type} [BEq α] [LawfulBEq α] (l : List α) (a : α) :
    l.contains a = true ↔ a ∈ l := by simp

theorem lowerAll_cons (x : String) (xs : List String) :
    lowerAll (x :: xs) = pyLower x :: lowerAll xs := rfl

theorem canonicalLookup_of_contains (wl : List String) (s : String)
    (h : (lowerAll wl).contains s = true) :
    ∃ w, canonicalLookup wl s = some w ∧ pyLower w = s ∧ w ∈ wl := by
  induction wl with
  | nil => simp [lowerAll] at h
  | cons w ws ih =>
    by_cases hw : pyLower w = s
    · exact ⟨w, by simp [canonicalLookup, hw], hw, by simp⟩
    · have h2 : s ∈ lowerAll ws := by
        have hmem := (contains_true_iff _ _).mp h
        rw [lowerAll_cons] at hmem
        rcases List.mem_cons.mp hmem with h3 | h3
        · exact absurd h3.symm hw
        · exact h3
      obtain ⟨c, hc1, hc2, hc3⟩ := ih ((contains_true_iff _ _).mpr h2)
      refine ⟨c, ?_, hc2, List.mem_cons_of_mem _ hc3⟩
      simp only [canonicalLookup, beq_iff_eq, hw, if_false]
      exact hc1

theorem isWhitelisted_canonical (cfg : RoleConfig) (argument : String)
    (h : isWhitelisted cfg argument = true) :
    ∃ canon, canonicalName cfg argument = some canon ∧
      pyLower canon = pyLower argument ∧ canon ∈ cfg.whitelist := by
  obtain ⟨w, h1, h2, h3⟩ := canonicalLookup_of_contains cfg.whitelist (pyLower argument) h
  exact ⟨w, h1, h2, h3⟩

theorem guildHasRole_iff (g : GuildState) (argument : String) :
    guildHasRole g argument = true ↔
      ∃ r ∈ g.roles, pyLower r.name = pyLower argument := by
  simp [guildHasRole, lowerAll, getGuildRolesNames]

theorem authorHasRole_iff (g : GuildState) (author : Nat) (argument : String) :
    authorHasRole g author argument = true ↔
      ∃ r ∈ g.roles, r.members.contains author = true ∧
        pyLower r.name = pyLower argument := by
  simp only [authorHasRole, getAuthorRolesNames, lowerAll, List.map_map,
    contains_true_iff, List.mem_map, List.mem_filter]
  constructor
  · rintro ⟨r, ⟨hr, hm⟩, hn⟩
    exact ⟨r, hr, hm, hn⟩
  · rintro ⟨r, hr, hm, hn⟩
    exact ⟨r, ⟨hr, hm⟩, hn⟩

theorem authorHasRole_of_mem (g : GuildState) (author : Nat) (argument : String)
    (x : Role) (hx : x ∈ g.roles) (hm : x.members.contains author = true)
    (hn : pyLower x.name = pyLower argument) :
    authorHasRole g author argument = true :=
  (authorHasRole_iff g author argument).mpr ⟨x, hx, hm, hn⟩

theorem not_guildHasRole_name_ne (g : GuildState) (argument : String)
    (h : guildHasRole g argument = false) (canon : String)
    (hc : pyLower canon = pyLower argument) :
    ∀ r ∈ g.roles, (r.name == canon) = false := by
  intro r hr
  rw [beq_eq_false_iff_ne]
  intro hname
  have : guildHasRole g argument = true :=
    (guildHasRole_iff g argument).mpr ⟨r, hr, by rw [hname, hc]⟩
  rw [h] at this
  exact Bool.false_ne_true this

theorem roleAddMember_name (r : Role) (a : Nat) : (roleAddMember r a).name = r.name := by
  unfold roleAddMember
  split <;> rfl

theorem roleRemoveMember_name (r : Role) (a : Nat) :
    (roleRemoveMember r a).name = r.name := rfl

theorem roleAddMember_contains (r : Role) (a : Nat) :
    (roleAddMember r a).members.contains a = true := by
  unfold roleAddMember
  split
  · assumption
  · simp

theorem roleRemoveMember_not_contains (r : Role) (a : Nat) :
    (roleRemoveMember r a).members.contains a = false := by
  simp [roleRemoveMember]

theorem updateFirstRole_map_name (roles : List Role) (n : String) (f : Role → Role)
    (hf : ∀ r, (f r).name = r.name) :
    (updateFirstRole roles n f).map Role.name = roles.map Role.name := by
  induction roles with
  | nil => rfl
  | cons r rs ih =>
    unfold updateFirstRole
    split
    · simp [hf]
    · simp [ih]

theorem updateFirstRole_append_left (roles ext : List Role) (n : String) (f : Role → Role)
    (h : ∀ r ∈ roles, (r.name == n) = false) :
    updateFirstRole (roles ++ ext) n f = roles ++ updateFirstRole ext n f := by
  induction roles with
  | nil => rfl
  | cons r rs ih =>
    have hr := h r (List.mem_cons_self r rs)
    simp only [List.cons_append, updateFirstRole, hr]
    rw [if_neg (by simp [hr])]
    simp only [List.append_eq]
    rw [ih (fun x hx => h x (List.mem_cons_of_mem _ hx))]

theorem find?_updateFirstRole (roles : List Role) (n : String) (f : Role → Role)
    (hf : ∀ r, (f r).name = r.name) :
    (updateFirstRole roles n f).find? (fun r => r.name == n) =
      (roles.find? (fun r => r.name == n)).map f := by
  induction roles with
  | nil => rfl
  | cons r rs ih =>
    by_cases hr : (r.name == n) = true
    · unfold updateFirstRole
      rw [if_pos hr]
      have hfr : ((f r).name == n) = true := by rw [hf]; exact hr
      simp only [List.find?, hfr, hr]
      rfl
    · have hr' : (r.name == n) = false := Bool.eq_false_iff.mpr hr
      unfold updateFirstRole
      rw [if_neg (by simp [hr'])]
      simp only [List.find?, hr']
      exact ih

theorem updateFirstRole_decompose (roles : List Role) (n : String) (f : Role → Role)
    (r : Role) (h : roles.find? (fun x => x.name == n) = some r) :
    ∃ l1 l2, roles = l1 ++ r :: l2 ∧ updateFirstRole roles n f = l1 ++ f r :: l2 := by
  induction roles with
  | nil => simp at h
  | cons x xs ih =>
    by_cases hx : (x.name == n) = true
    · simp only [List.find?, hx] at h
      obtain rfl : x = r := by injection h
      refine ⟨[], xs, rfl, ?_⟩
      unfold updateFirstRole
      rw [if_pos hx]
      rfl
    · have hx' : (x.name == n) = false := Bool.eq_false_iff.mpr hx
      simp only [List.find?, hx'] at h
      obtain ⟨l1, l2, he, hu⟩ := ih h
      refine ⟨x :: l1, l2, by rw [he]; rfl, ?_⟩
      unfold updateFirstRole
      rw [if_neg (by simp [hx'])]
      rw [hu]
      rfl

theorem deleteFirstRole_map_name (roles : List Role) (n : String) :
    (deleteFirstRole roles n).map Role.name = (roles.map Role.name).erase n := by
  induction roles with
  | nil => rfl
  | cons r rs ih =>
    unfold deleteFirstRole
    rw [List.map_cons, List.erase_cons]
    by_cases hr : (r.name == n) = true
    · rw [if_pos hr, if_pos hr]
    · rw [if_neg hr, if_neg hr]
      simp [ih]

/-! ### C1: addRole -/

/-- Claim C1: `addRole` fails with the whitelist / max-roles / already-has-role
messages in that order of precedence, leaving the guild untouched; otherwise it
resolves the canonical casing, creates the guild role with the configured
colour when the guild lacks the name (case-insensitively) and assigns it.
When the guild instead already has a case-variant of the name, the assignment
goes through only if a role with exactly the canonical casing exists; with only
a differently-cased guild role the exact-name lookup fails and the operation
raises (modelled as `none`) instead of returning a success message.  A user at
or above `maxRoles` (as counted by `hasMaxRoles`) never reaches the success
branches; one below the max meeting the other preconditions does. -/
theorem addRole_characterisation (cfg : RoleConfig) (g : GuildState) (author : Nat)
    (argument : String) :
    (isWhitelisted cfg argument = false →
      addRole cfg g author argument = some (.notWhitelisted argument, g)) ∧
    (isWhitelisted cfg argument = true → hasMaxRoles cfg g author = true →
      addRole cfg g author argument = some (.maxRolesReached, g)) ∧
    (isWhitelisted cfg argument = true → hasMaxRoles cfg g author = false →
      authorHasRole g author argument = true →
      addRole cfg g author argument = some (.alreadyHasRole argument, g)) ∧
    (isWhitelisted cfg argument = true → hasMaxRoles cfg g author = false →
      authorHasRole g author argument = false → guildHasRole g argument = false →
      ∃ canon, canonicalName cfg argument = some canon ∧ canon ∈ cfg.whitelist ∧
        pyLower canon = pyLower argument ∧
        addRole cfg g author argument = some (.added canon,
          ⟨g.roles ++ [⟨canon, cfg.roleColour, [author]⟩]⟩)) ∧
    (isWhitelisted cfg argument = true → hasMaxRoles cfg g author = false →
      authorHasRole g author argument = false → guildHasRole g argument = true →
      ∃ canon, canonicalName cfg argument = some canon ∧
        pyLower canon = pyLower argument ∧
        (getRoleByName g canon = none → addRole cfg g author argument = none) ∧
        (∀ r, getRoleByName g canon = some r →
          ∃ g1, addRole cfg g author argument = some (.added canon, g1) ∧
            g1.roles.map Role.name = g.roles.map Role.name ∧
            authorHasRole g1 author argument = true)) := by
  refine ⟨?_, ?_, ?_, ?_, ?_⟩
  · intro hW
    simp [addRole, hW]
  · intro hW hM
    simp [addRole, hW, hM]
  · intro hW hM hA
    simp [addRole, hW, hM, hA]
  · intro hW hM hA hG
    obtain ⟨canon, hc, hlow, hmem⟩ := isWhitelisted_canonical cfg argument hW
    refine ⟨canon, hc, hmem, hlow, ?_⟩
    have hne : ∀ r ∈ g.roles, (r.name == canon) = false :=
      not_guildHasRole_name_ne g argument hG canon hlow
    have hfind : getRoleByName (createRole cfg g canon) canon =
        some ⟨canon, cfg.roleColour, []⟩ := by
      unfold getRoleByName createRole
      rw [List.find?_append]
      have h1 : g.roles.find? (fun r => r.name == canon) = none :=
        List.find?_eq_none.mpr (fun r hr => by simp [hne r hr])
      rw [h1]
      simp [List.find?]
    have hupd : updateFirstRole (g.roles ++ [⟨canon, cfg.roleColour, []⟩]) canon
        (fun r => roleAddMember r author) = g.roles ++ [⟨canon, cfg.roleColour, [author]⟩] := by
      rw [updateFirstRole_append_left _ _ _ _ hne]
      unfold updateFirstRole
      rw [if_pos (by simp)]
      simp [roleAddMember, updateFirstRole]
    simp [addRole, hW, hM, hA, hG, hc, createRole] at hfind hupd ⊢
    rw [hfind]
    simp [hupd]
  · intro hW hM hA hG
    obtain ⟨canon, hc, hlow, _⟩ := isWhitelisted_canonical cfg argument hW
    refine ⟨canon, hc, hlow, ?_, ?_⟩
    · intro hnone
      simp [addRole, hW, hM, hA, hG, hc, hnone]
    · intro r hr
      refine ⟨⟨updateFirstRole g.roles canon (fun x => roleAddMember x author)⟩, ?_, ?_, ?_⟩
      · simp [addRole, hW, hM, hA, hG, hc]
        rw [hr]
      · exact updateFirstRole_map_name _ _ _ (fun x => roleAddMember_name x author)
      · obtain ⟨l1, l2, _, hu⟩ :=
          updateFirstRole_decompose g.roles canon (fun x => roleAddMember x author) r hr
        apply authorHasRole_of_mem _ _ _ (roleAddMember r author)
        · show roleAddMember r author ∈ updateFirstRole g.roles canon
            (fun x => roleAddMember x author)
          rw [hu]
          exact List.mem_append_right _ (List.mem_cons_self _ _)
        · exact roleAddMember_contains r author
        · rw [roleAddMember_name]
          have hpred := List.find?_some hr
          have hname : r.name = canon := by simpa using hpred
          rw [hname, hlow]

def cfgAddCrash : RoleConfig := ⟨["Red"], 3, 5⟩

def gAddCrash : GuildState := ⟨[⟨"RED", 7, []⟩]⟩

-- Counterexample for C1 as stated: all three preconditions pass, the guild
-- holds only the case-variant "RED", and `addRole` raises instead of
-- assigning and returning a success message.
theorem addRole_case_variant_crash :
    isWhitelisted cfgAddCrash "red" = true ∧ hasMaxRoles cfgAddCrash gAddCrash 1 = false ∧
    authorHasRole gAddCrash 1 "red" = false ∧ guildHasRole gAddCrash "red" = true ∧
    addRole cfgAddCrash gAddCrash 1 "red" = none := by decide

def cfgAddW : RoleConfig := ⟨["Red"], 3, 1⟩

def gAddW : GuildState := ⟨[]⟩

theorem addRole_characterisation_witness :
    ∃ canon, canonicalName cfgAddW "red" = some canon ∧ canon ∈ cfgAddW.whitelist ∧
      pyLower canon = pyLower "red" ∧
      addRole cfgAddW gAddW 1 "red" = some (.added canon,
        ⟨gAddW.roles ++ [⟨canon, cfgAddW.roleColour, [1]⟩]⟩) :=
  (addRole_characterisation cfgAddW gAddW 1 "red").2.2.2.1
    (by decide) (by decide) (by decide) (by decide)

/-! ### C5: removeRole -/

/-- Claim C5: `removeRole` fails with `NotWhitelisted` / `DoesNotHaveRole`
under the analogous conditions, without touching the guild.  Otherwise it
resolves the canonical casing and operates on the guild role named exactly
with that casing: it removes the author from it and deletes it precisely when
it then has zero members (it survives when members remain).  When the author's
held case-variant does not match any exactly-canonically-named guild role, the
exact-name lookup fails and the operation raises (`none`) instead of removing
the role. -/
theorem removeRole_characterisation (cfg : RoleConfig) (g : GuildState) (author : Nat)
    (argument : String) :
    (isWhitelisted cfg argument = false →
      removeRole cfg g author argument = some (.notWhitelisted argument, g)) ∧
    (isWhitelisted cfg argument = true → authorHasRole g author argument = false →
      removeRole cfg g author argument = some (.doesNotHaveRole argument, g)) ∧
    (∀ r : Role, (roleRemoveMember r author).members.contains author = false) ∧
    (isWhitelisted cfg argument = true → authorHasRole g author argument = true →
      ∃ canon, canonicalName cfg argument = some canon ∧
        pyLower canon = pyLower argument ∧
        (getRoleByName g canon = none → removeRole cfg g author argument = none) ∧
        (∀ r, getRoleByName g canon = some r →
          ((roleRemoveMember r author).members.length = 0 →
            ∃ g1, removeRole cfg g author argument = some (.removed canon, g1) ∧
              g1.roles.map Role.name = (g.roles.map Role.name).erase canon) ∧
          ((roleRemoveMember r author).members.length ≠ 0 →
            ∃ g1, removeRole cfg g author argument = some (.removed canon, g1) ∧
              g1.roles.map Role.name = g.roles.map Role.name ∧
              getRoleByName g1 canon = some (roleRemoveMember r author)))) := by
  refine ⟨?_, ?_, ?_, ?_⟩
  · intro hW
    simp [removeRole, hW]
  · intro hW hA
    simp [removeRole, hW, hA]
  · intro r
    exact roleRemoveMember_not_contains r author
  · intro hW hA
    obtain ⟨canon, hc, hlow, _⟩ := isWhitelisted_canonical cfg argument hW
    refine ⟨canon, hc, hlow, ?_, ?_⟩
    · intro hnone
      simp [removeRole, hW, hA, hc, hnone]
    · intro r hr
      have hre : getRoleByName
          (⟨updateFirstRole g.roles canon (fun x => roleRemoveMember x author)⟩ :
            GuildState) canon = some (roleRemoveMember r author) := by
        show (updateFirstRole g.roles canon (fun x => roleRemoveMember x author)).find?
          (fun x => x.name == canon) = _
        rw [find?_updateFirstRole _ _ _ (fun x => roleRemoveMember_name x author)]
        have : g.roles.find? (fun x => x.name == canon) = some r := hr
        rw [this]
        rfl
      constructor
      · intro hz
        refine ⟨⟨deleteFirstRole
            (updateFirstRole g.roles canon (fun x => roleRemoveMember x author)) canon⟩,
          ?_, ?_⟩
        · simp [removeRole, hW, hA, hc, hr, hre, hz]
        · show (deleteFirstRole _ canon).map Role.name = _
          rw [deleteFirstRole_map_name,
            updateFirstRole_map_name _ _ _ (fun x => roleRemoveMember_name x author)]
      · intro hnz
        refine ⟨⟨updateFirstRole g.roles canon (fun x => roleRemoveMember x author)⟩,
          ?_, ?_, hre⟩
        · simp [removeRole, hW, hA, hc, hr, hre, hnz]
        · exact updateFirstRole_map_name _ _ _ (fun x => roleRemoveMember_name x author)

def cfgRemCrash : RoleConfig := ⟨["Red"], 3, 5⟩

def gRemCrash : GuildState := ⟨[⟨"red", 7, [1]⟩]⟩

-- Counterexample for C5 as stated: the role is whitelisted and held (as the
-- case-variant "red"), yet `removeRole` raises instead of removing it.
theorem removeRole_case_variant_crash :
    isWhitelisted cfgRemCrash "red" = true ∧ authorHasRole gRemCrash 1 "red" = true ∧
    removeRole cfgRemCrash gRemCrash 1 "red" = none := by decide

def cfgRemW : RoleConfig := ⟨["Red"], 3, 5⟩

def gRemW : GuildState := ⟨[⟨"Red", 7, [1, 2]⟩]⟩

theorem removeRole_characterisation_witness :
    ∃ canon, canonicalName cfgRemW "red" = some canon ∧
      pyLower canon = pyLower "red" ∧
      (getRoleByName gRemW canon = none → removeRole cfgRemW gRemW 1 "red" = none) ∧
      (∀ r, getRoleByName gRemW canon = some r →
        ((roleRemoveMember r 1).members.length = 0 →
          ∃ g1, removeRole cfgRemW gRemW 1 "red" = some (.removed canon, g1) ∧
            g1.roles.map Role.name = (gRemW.roles.map Role.name).erase canon) ∧
        ((roleRemoveMember r 1).members.length ≠ 0 →
          ∃ g1, removeRole cfgRemW gRemW 1 "red" = some (.removed canon, g1) ∧
            g1.roles.map Role.name = gRemW.roles.map Role.name ∧
            getRoleByName g1 canon = some (roleRemoveMember r 1))) :=
  (removeRole_characterisation cfgRemW gRemW 1 "red").2.2.2 (by decide) (by decide)

/-! ### C10: atomicity of the business-error paths -/

/-- The four expected business outcomes of section 7's taxonomy. -/
def isBusinessError : RoleResult → Bool
  | .notWhitelisted _ => true
  | .maxRolesReached => true
  | .alreadyHasRole _ => true
  | .doesNotHaveRole _ => true
  | _ => false

/-- Claim C10: whenever `addRole` or `removeRole` returns one of the business
error messages, the guild state (roles and memberships) is exactly what it was
before the call: the error paths perform no remote mutation. -/
theorem operations_atomic_on_error (cfg : RoleConfig) (g : GuildState) (author : Nat)
    (argument : String) (r : RoleResult) (gg : GuildState) :
    (addRole cfg g author argument = some (r, gg) → isBusinessError r = true → gg = g) ∧
    (removeRole cfg g author argument = some (r, gg) → isBusinessError r = true → gg = g) := by
  constructor
  · intro h hr
    unfold addRole at h
    repeat' split at h
    all_goals try (simp only [Option.some.injEq, Prod.mk.injEq] at h)
    all_goals try (split at h)
    all_goals try (simp only [Option.some.injEq, Prod.mk.injEq] at h)
    all_goals try (obtain ⟨h1, h2⟩ := h; subst h1; subst h2)
    all_goals simp_all [isBusinessError]
  · intro h hr
    unfold removeRole at h
    repeat' split at h
    all_goals try (simp only [Option.some.injEq, Prod.mk.injEq] at h)
    all_goals try (split at h)
    all_goals try (simp only [Option.some.injEq, Prod.mk.injEq] at h)
    all_goals try (split at h)
    all_goals try (simp only [Option.some.injEq, Prod.mk.injEq] at h)
    all_goals try (obtain ⟨h1, h2⟩ := h; subst h1; subst h2)
    all_goals simp_all [isBusinessError]

def cfgAtomW : RoleConfig := ⟨["Red", "Blue"], 3, 1⟩

def gAtomW : GuildState := ⟨[⟨"Blue", 3, [1]⟩]⟩

theorem operations_atomic_on_error_witness :
    addRole cfgAtomW gAtomW 1 "Red" = some (.maxRolesReached, gAtomW) ∧
    removeRole cfgAtomW gAtomW 1 "Red" = some (.doesNotHaveRole "Red", gAtomW) ∧
    gAtomW = gAtomW ∧ gAtomW = gAtomW :=
  ⟨by decide, by decide,
    (operations_atomic_on_error cfgAtomW gAtomW 1 "Red" .maxRolesReached gAtomW).1
      (by decide) (by decide),
    (operations_atomic_on_error cfgAtomW gAtomW 1 "Red" (.doesNotHaveRole "Red") gAtomW).2
      (by decide) (by decide)⟩

/-! ### C6: case-insensitivity of the state queries -/

def cfgCIx : RoleConfig := ⟨["Red"], 3, 1⟩

def gCIx : GuildState := ⟨[⟨"red", 3, [1]⟩]⟩

-- Counterexample for C6 as stated: the author holds the whitelisted role as
-- the case-variant "red"; counting case-insensitively (the spec's reading)
-- reaches the max of 1, but the code's `hasMaxRoles` compares held names to
-- the whitelist case-sensitively and counts 0.
theorem hasMaxRoles_case_sensitive :
    hasMaxRolesCI cfgCIx gCIx 1 = true ∧ hasMaxRoles cfgCIx gCIx 1 = false ∧
    authorHasRole gCIx 1 "Red" = true ∧ isWhitelisted cfgCIx "red" = true := by decide

/-- Claim C6 (amended): `isWhitelisted`, `authorHasRole` and `guildHasRole`
are case-insensitive in their role-name argument (any case variant gives the
same answer, and every case variant of a whitelist entry is accepted by
`isWhitelisted`), but `hasMaxRoles` counts the author's held roles by exact,
case-sensitive name membership in the whitelist, so a held case-variant of a
whitelist entry is not counted. -/
theorem queries_case_insensitivity (cfg : RoleConfig) (g : GuildState) (author : Nat)
    (s t w v : String) (hst : pyLower s = pyLower t) (hw : w ∈ cfg.whitelist)
    (hv : pyLower v = pyLower w) :
    isWhitelisted cfg s = isWhitelisted cfg t ∧
    authorHasRole g author s = authorHasRole g author t ∧
    guildHasRole g s = guildHasRole g t ∧
    isWhitelisted cfg v = true ∧
    hasMaxRoles cfg g author =
      decide (cfg.maxRoles ≤
        ((getAuthorRolesNames g author).filter
          (fun x => decide (x ∈ cfg.whitelist))).length) := by
  refine ⟨?_, ?_, ?_, ?_, ?_⟩
  · simp [isWhitelisted, hst]
  · simp [authorHasRole, hst]
  · simp [guildHasRole, hst]
  · apply (contains_true_iff _ _).mpr
    rw [hv]
    exact List.mem_map_of_mem pyLower hw
  · have hfe : (getAuthorRolesNames g author).filter (fun x => cfg.whitelist.contains x) =
        (getAuthorRolesNames g author).filter (fun x => decide (x ∈ cfg.whitelist)) :=
      List.filter_congr (fun x _ => by simp)
    unfold hasMaxRoles
    rw [hfe]

def cfgCIw : RoleConfig := ⟨["Red"], 3, 1⟩

def gCIw : GuildState := ⟨[⟨"Red", 3, [1]⟩, ⟨"blue", 3, [1]⟩]⟩

theorem queries_case_insensitivity_witness :
    isWhitelisted cfgCIw "RED" = isWhitelisted cfgCIw "red" ∧
    authorHasRole gCIw 1 "RED" = authorHasRole gCIw 1 "red" ∧
    guildHasRole gCIw "RED" = guildHasRole gCIw "red" ∧
    isWhitelisted cfgCIw "reD" = true ∧
    hasMaxRoles cfgCIw gCIw 1 =
      decide (cfgCIw.maxRoles ≤
        ((getAuthorRolesNames gCIw 1).filter
          (fun x => decide (x ∈ cfgCIw.whitelist))).length) :=
  queries_case_insensitivity cfgCIw gCIw 1 "RED" "red" "Red" "reD"
    (by decide) (by decide) (by decide)

/-! ### C7: authorization of menu interactions -/

/-- Claim C7: an interaction on the role selector, the Back button or any
action button whose invoking user differs from the user who opened the menu
returns immediately: no guild mutation, no menu-state change, no message edit
or acknowledgement, no error surfaced. -/
theorem unauthorized_interactions_ignored (cfg : RoleConfig) (g : GuildState)
    (menu : MenuState) (viewAction buttonAction : String) (authorId invokerId : Nat)
    (selection : String) (h : authorId ≠ invokerId) :
    menuCallback cfg g menu viewAction authorId invokerId selection =
      ⟨g, menu, [], false⟩ ∧
    backButtonCallback authorId invokerId = ⟨[], false⟩ ∧
    rolesButtonCallback cfg g buttonAction viewAction authorId invokerId =
      ⟨viewAction, none, []⟩ := by
  refine ⟨?_, ?_, ?_⟩
  · simp [menuCallback, h]
  · simp [backButtonCallback, h]
  · simp [rolesButtonCallback, h]

theorem unauthorized_interactions_ignored_witness :
    menuCallback ⟨["Red"], 3, 1⟩ ⟨[]⟩ (mkRoleMenu ["Red"]) "Add" 1 2 "Red" =
      ⟨⟨[]⟩, mkRoleMenu ["Red"], [], false⟩ ∧
    backButtonCallback 1 2 = ⟨[], false⟩ ∧
    rolesButtonCallback ⟨["Red"], 3, 1⟩ ⟨[]⟩ "Remove" "Add" 1 2 =
      ⟨"Add", none, []⟩ :=
  unauthorized_interactions_ignored ⟨["Red"], 3, 1⟩ ⟨[]⟩ (mkRoleMenu ["Red"])
    "Add" "Remove" 1 2 "Red" (by decide)

/-! ### C2: the menu's Add/Remove branches versus RoleOperations -/

def cfgMenuAdd : RoleConfig := ⟨["Blue", "Red"], 5, 1⟩

def gMenuAdd : GuildState := ⟨[⟨"Blue", 5, [1]⟩]⟩

def outMenuAdd : CbOut :=
  menuCallback cfgMenuAdd gMenuAdd (mkRoleMenu ["Blue", "Red"]) "Add" 1 1 "Red"

/-- Claim C2: selecting a role entry with `action = Add` is claimed to behave
like `RoleOperations.addRole`.  On a user already at the maximum, `addRole`
refuses with the max-roles message and leaves the guild unchanged, but the
menu branch (whose max-roles check is missing its early return) shows the
max-roles message and then creates and assigns the role anyway, edits the
message twice, and raises on the second acknowledgement. -/
theorem menu_add_diverges_from_addRole :
    "Red" ∈ optionValues (mkRoleMenu ["Blue", "Red"]).options ∧
    hasMaxRoles cfgMenuAdd gMenuAdd 1 = true ∧
    addRole cfgMenuAdd gMenuAdd 1 "Red" = some (.maxRolesReached, gMenuAdd) ∧
    outMenuAdd.g = ⟨[⟨"Blue", 5, [1]⟩, ⟨"Red", 5, [1]⟩]⟩ ∧
    outMenuAdd.g ≠ gMenuAdd ∧
    Ev.createdRole "Red" ∈ outMenuAdd.events ∧
    Ev.assignedRole 1 "Red" ∈ outMenuAdd.events ∧
    outMenuAdd.events.count Ev.editMessage = 2 ∧
    outMenuAdd.crashed = true := by decide

/-! ### C3: the "Next Page" transition -/

def wlNext : List String := (List.range 24).map (fun n => "r" ++ toString n)

def cfgNext : RoleConfig := ⟨wlNext, 5, 9⟩

def outNext : CbOut :=
  menuCallback cfgNext ⟨[]⟩ (mkRoleMenu wlNext) "Add" 1 1 "Next Page"

/-- Claim C3: selecting "Next Page" is claimed to only advance the window
(one edit, one acknowledgement, no role operation).  The pagination does
happen (`index` 0 to 23, `page` 1 to 2), but the source's dangling `else`
sends the selection on into the Add branch: a guild role literally named
"Next Page" is created and assigned, the message is edited a second time,
and the second acknowledgement raises. -/
theorem next_page_add_side_effects :
    "Next Page" ∈ optionValues (mkRoleMenu wlNext).options ∧
    outNext.menu.index = 23 ∧ outNext.menu.page = 2 ∧
    Ev.createdRole "Next Page" ∈ outNext.events ∧
    Ev.assignedRole 1 "Next Page" ∈ outNext.events ∧
    outNext.events.count Ev.editMessage = 2 ∧
    outNext.crashed = true ∧
    getRoleByName outNext.g "Next Page" = some ⟨"Next Page", 5, [1]⟩ := by decide

/-! ### Stable sort lemmas -/

theorem mem_insertSorted {α : Type} (le : α → α → Bool) (e : α) (l : List α) (a : α) :
    a ∈ insertSorted le e l ↔ a = e ∨ a ∈ l := by
  induction l with
  | nil => simp [insertSorted]
  | cons x xs ih =>
    unfold insertSorted
    by_cases h : le e x = true
    · rw [if_pos h]
      simp [List.mem_cons]
    · rw [if_neg h]
      simp [List.mem_cons, ih]
      tauto

theorem insertSorted_perm {α : Type} (le : α → α → Bool) (e : α) (l : List α) :
    (insertSorted le e l).Perm (e :: l) := by
  induction l with
  | nil => exact List.Perm.refl _
  | cons x xs ih =>
    unfold insertSorted
    by_cases h : le e x = true
    · rw [if_pos h]
    · rw [if_neg h]
      exact (List.Perm.cons x ih).trans (List.Perm.swap e x xs)

theorem sortedBy_perm {α : Type} (le : α → α → Bool) (l : List α) :
    (sortedBy le l).Perm l := by
  induction l with
  | nil => exact List.Perm.refl _
  | cons e xs ih =>
    exact (insertSorted_perm le e (sortedBy le xs)).trans (List.Perm.cons e ih)

theorem pairwise_insertSorted {α : Type} (le : α → α → Bool)
    (htot : ∀ a b, le a b = true ∨ le b a = true)
    (htrans : ∀ a b c, le a b = true → le b c = true → le a c = true)
    (e : α) (l : List α) (hl : l.Pairwise (fun a b => le a b = true)) :
    (insertSorted le e l).Pairwise (fun a b => le a b = true) := by
  induction l with
  | nil => simp [insertSorted]
  | cons x xs ih =>
    rcases List.pairwise_cons.mp hl with ⟨hx, hxs⟩
    unfold insertSorted
    by_cases h : le e x = true
    · rw [if_pos h]
      refine List.Pairwise.cons ?_ hl
      intro b hb
      rcases List.mem_cons.mp hb with rfl | hb2
      · exact h
      · exact htrans e x b h (hx b hb2)
    · rw [if_neg h]
      refine List.Pairwise.cons ?_ (ih hxs)
      intro b hb
      rcases (mem_insertSorted le e xs b).mp hb with rfl | hb2
      · rcases htot x b with hh | hh
        · exact hh
        · exact absurd hh h
      · exact hx b hb2

theorem sortedBy_pairwise {α : Type} (le : α → α → Bool)
    (htot : ∀ a b, le a b = true ∨ le b a = true)
    (htrans : ∀ a b c, le a b = true → le b c = true → le a c = true)
    (l : List α) : (sortedBy le l).Pairwise (fun a b => le a b = true) := by
  induction l with
  | nil => simp [sortedBy]
  | cons e xs ih => exact pairwise_insertSorted le htot htrans e _ ih

theorem pairwise_insertSorted_stable {α : Type} (le : α → α → Bool) (R : α → α → Prop)
    (e : α) (l : List α)
    (hl : l.Pairwise (fun a b => le a b = true → le b a = true → R a b))
    (he : ∀ y ∈ l, le e y = true → le y e = true → R e y) :
    (insertSorted le e l).Pairwise (fun a b => le a b = true → le b a = true → R a b) := by
  induction l with
  | nil => simp [insertSorted]
  | cons x xs ih =>
    rcases List.pairwise_cons.mp hl with ⟨hx, hxs⟩
    unfold insertSorted
    by_cases h : le e x = true
    · rw [if_pos h]
      refine List.Pairwise.cons ?_ hl
      intro b hb h1 h2
      exact he b hb h1 h2
    · rw [if_neg h]
      refine List.Pairwise.cons ?_
        (ih hxs (fun y hy => he y (List.mem_cons_of_mem _ hy)))
      intro b hb h1 h2
      rcases (mem_insertSorted le e xs b).mp hb with rfl | hb2
      · exact absurd h2 h
      · exact hx b hb2 h1 h2

theorem sortedBy_stable {α : Type} (le : α → α → Bool) (R : α → α → Prop)
    (l : List α) (hl : l.Pairwise R) :
    (sortedBy le l).Pairwise (fun a b => le a b = true → le b a = true → R a b) := by
  induction l with
  | nil => simp [sortedBy]
  | cons e xs ih =>
    rcases List.pairwise_cons.mp hl with ⟨he, hxs⟩
    apply pairwise_insertSorted_stable
    · exact ih hxs
    · intro y hy h1 h2
      exact he y ((sortedBy_perm le xs).mem_iff.mp hy)

/-- Strict positional order: `a` occurs before `b` in `l`. -/
def isBefore {α : Type} (l : List α) (a b : α) : Prop :=
  ∃ i j : Nat, i < j ∧ l[i]? = some a ∧ l[j]? = some b

theorem pairwise_isBefore {α : Type} (l : List α) : l.Pairwise (isBefore l) := by
  induction l with
  | nil => exact List.Pairwise.nil
  | cons a xs ih =>
    refine List.Pairwise.cons ?_ (ih.imp ?_)
    · intro b hb
      obtain ⟨j, hj⟩ := List.mem_iff_getElem?.mp hb
      exact ⟨0, j + 1, Nat.succ_pos j, by simp, by simpa using hj⟩
    · rintro x y ⟨i, j, hij, hx, hy⟩
      exact ⟨i + 1, j + 1, by omega, by simpa using hx, by simpa using hy⟩

/-! ### Code-point order lemmas -/

theorem charListLt_asymm (x y : List Char) (h : charListLt x y = true) :
    charListLt y x = false := by
  induction x generalizing y with
  | nil =>
    cases y with
    | nil => simp [charListLt] at h
    | cons b bs => rfl
  | cons a as ih =>
    cases y with
    | nil => simp [charListLt] at h
    | cons b bs =>
      unfold charListLt at h ⊢
      by_cases h1 : a.val < b.val
      · have h2 : ¬ b.val < a.val := Nat.lt_asymm h1
        simp [h1, h2]
      · by_cases h2 : b.val < a.val
        · simp [h1, h2] at h
        · simp [h1, h2] at h ⊢
          exact ih bs h

theorem charListLt_trans (x y z : List Char) (h1 : charListLt x y = true)
    (h2 : charListLt y z = true) : charListLt x z = true := by
  induction x generalizing y z with
  | nil =>
    cases z with
    | nil =>
      cases y with
      | nil => simp [charListLt] at h1
      | cons b bs => simp [charListLt] at h2
    | cons c cs => rfl
  | cons a as ih =>
    cases y with
    | nil => simp [charListLt] at h1
    | cons b bs =>
      cases z with
      | nil => simp [charListLt] at h2
      | cons c cs =>
        unfold charListLt at h1 h2 ⊢
        by_cases hab : a.val < b.val
        · by_cases hbc : b.val < c.val
          · have hac : a.val < c.val := Nat.lt_trans hab hbc
            simp [hac]
          · by_cases hcb : c.val < b.val
            · simp [hbc, hcb] at h2
            · have hac : a.val < c.val := by
                have e1 : a.val.toNat < b.val.toNat := hab
                have e2 : ¬ b.val.toNat < c.val.toNat := hbc
                have e3 : ¬ c.val.toNat < b.val.toNat := hcb
                show a.val.toNat < c.val.toNat
                omega
              simp [hac]
        · by_cases hba : b.val < a.val
          · simp [hab, hba] at h1
          · simp [hab, hba] at h1
            by_cases hbc : b.val < c.val
            · have hac : a.val < c.val := by
                have e1 : ¬ a.val.toNat < b.val.toNat := hab
                have e2 : ¬ b.val.toNat < a.val.toNat := hba
                have e3 : b.val.toNat < c.val.toNat := hbc
                show a.val.toNat < c.val.toNat
                omega
              simp [hac]
            · by_cases hcb : c.val < b.val
              · simp [hbc, hcb] at h2
              · simp [hbc, hcb] at h2
                have e1 : ¬ a.val.toNat < b.val.toNat := hab
                have e2 : ¬ b.val.toNat < a.val.toNat := hba
                have e3 : ¬ b.val.toNat < c.val.toNat := hbc
                have e4 : ¬ c.val.toNat < b.val.toNat := hcb
                have hac1 : ¬ a.val < c.val := by
                  show ¬ a.val.toNat < c.val.toNat
                  omega
                have hac2 : ¬ c.val < a.val := by
                  show ¬ c.val.toNat < a.val.toNat
                  omega
                simp [hac1, hac2]
                exact ih bs cs h1 h2

theorem charListLt_connex (x y : List Char) (h1 : charListLt x y = false)
    (h2 : charListLt y x = false) : x = y := by
  induction x generalizing y with
  | nil =>
    cases y with
    | nil => rfl
    | cons b bs => simp [charListLt] at h1
  | cons a as ih =>
    cases y with
    | nil => simp [charListLt] at h2
    | cons b bs =>
      unfold charListLt at h1 h2
      by_cases hab : a.val < b.val
      · simp [hab] at h1
      · by_cases hba : b.val < a.val
        · simp [hab, hba] at h2
        · simp [hab, hba] at h1 h2
          have hcheq : a = b :=
            Char.ext (UInt32.ext
              (Nat.le_antisymm (Nat.le_of_not_lt hba) (Nat.le_of_not_lt hab)))
          rw [hcheq, ih bs h1 h2]

theorem strLe_total (s t : String) : strLe s t = true ∨ strLe t s = true := by
  unfold strLe
  cases h : charListLt t.data s.data
  · left
    rfl
  · right
    rw [charListLt_asymm _ _ h]
    rfl

theorem strLe_trans (s t u : String) (h1 : strLe s t = true) (h2 : strLe t u = true) :
    strLe s u = true := by
  unfold strLe at h1 h2 ⊢
  have hts : charListLt t.data s.data = false := by
    cases h : charListLt t.data s.data
    · rfl
    · rw [h] at h1
      exact absurd h1 (by simp)
  have hut : charListLt u.data t.data = false := by
    cases h : charListLt u.data t.data
    · rfl
    · rw [h] at h2
      exact absurd h2 (by simp)
  cases h : charListLt u.data s.data
  · rfl
  · exfalso
    by_cases hst : charListLt s.data t.data = true
    · have hcontra := charListLt_trans u.data s.data t.data h hst
      rw [hut] at hcontra
      exact absurd hcontra (by simp)
    · have hst2 : charListLt s.data t.data = false := Bool.eq_false_iff.mpr hst
      have heq : s.data = t.data := charListLt_connex s.data t.data hst2 hts
      rw [heq, hut] at h
      exact absurd h (by simp)

/-! ### C9: the leaderboard -/

theorem lbEntry_head (cfg : RoleConfig) (r : Role) (rest : List Role) :
    lbEntry cfg (r :: rest) r.name =
      (if cfg.whitelist.contains r.name && decide (0 < r.members.length) then
        some { role := r.name, count := r.members.length }
      else none) := by
  simp [lbEntry, List.find?]

theorem lbEntry_tail (cfg : RoleConfig) (r : Role) (rest : List Role) (n : String)
    (hne : r.name ≠ n) : lbEntry cfg (r :: rest) n = lbEntry cfg rest n := by
  have hb : (r.name == n) = false := beq_eq_false_iff_ne.mpr hne
  simp [lbEntry, List.find?, hb]

theorem entriesOver_self (cfg : RoleConfig) (roles : List Role)
    (h : (roles.map Role.name).Nodup) :
    entriesOver cfg roles (roles.map Role.name) =
      (roles.filter (fun r =>
        cfg.whitelist.contains r.name && decide (0 < r.members.length))).map
        (fun r => { role := r.name, count := r.members.length }) := by
  induction roles with
  | nil => rfl
  | cons r rest ih =>
    rw [List.map_cons, List.nodup_cons] at h
    obtain ⟨hni, hnd⟩ := h
    have htail : (rest.map Role.name).filterMap (lbEntry cfg (r :: rest)) =
        (rest.map Role.name).filterMap (lbEntry cfg rest) := by
      apply List.filterMap_congr
      intro n hn
      exact lbEntry_tail cfg r rest n (fun hEq => hni (hEq ▸ hn))
    unfold entriesOver
    rw [List.map_cons, List.filterMap_cons, lbEntry_head, htail]
    have ih2 := ih hnd
    unfold entriesOver at ih2
    by_cases hp : (cfg.whitelist.contains r.name && decide (0 < r.members.length)) = true
    · rw [if_pos hp]
      have hpp : r.name ∈ cfg.whitelist ∧ 0 < r.members.length := by simpa using hp
      simp [List.filter_cons, hpp, ih2]
    · rw [if_neg hp]
      have hpp : ¬ (r.name ∈ cfg.whitelist ∧ 0 < r.members.length) := by simpa using hp
      simp [List.filter_cons, hpp, ih2]

def cfgLbDup : RoleConfig := ⟨["A"], 1, 9⟩

def gLbDup : GuildState := ⟨[⟨"A", 1, []⟩, ⟨"A", 1, [5]⟩]⟩

-- Counterexample for C9 as stated: guilds may hold duplicate role names, and
-- `getRoleByName` resolves every occurrence to the first role of that name.
-- With a memberless "A" shadowing an "A" that has a member, both loop
-- iterations see the memberless role, so `getLeaderboard` returns the fixed
-- empty-state message although a whitelisted guild role has a member.
theorem getLeaderboard_duplicate_names :
    getLeaderboard cfgLbDup gLbDup = .empty ∧
    (⟨"A", 1, [5]⟩ : Role) ∈ gLbDup.roles ∧
    cfgLbDup.whitelist.contains "A" = true ∧
    0 < (⟨"A", 1, [5]⟩ : Role).members.length := by decide

/-- Claim C9 (amended): for guild states whose role names are distinct, the
unsorted leaderboard rows are exactly the whitelisted guild roles (exact-name
membership) with at least one member, each paired with its member count and
listed in guild order; `getLeaderboard` returns the fixed empty-state reply
exactly when there are none, and otherwise the rows sorted by count
descending, ties kept in guild order (stable sort).  (With duplicate role
names `getRoleByName` resolves every occurrence to the first role of that
name, so a shadowed role's members are never counted and the claim fails.) -/
theorem getLeaderboard_spec (cfg : RoleConfig) (g : GuildState)
    (h : (getGuildRolesNames g).Nodup) :
    leaderboardEntries cfg g =
      (g.roles.filter (fun r =>
        cfg.whitelist.contains r.name && decide (0 < r.members.length))).map
        (fun r => { role := r.name, count := r.members.length }) ∧
    (sortByCountDesc (leaderboardEntries cfg g)).Perm (leaderboardEntries cfg g) ∧
    (sortByCountDesc (leaderboardEntries cfg g)).Pairwise
      (fun a b => b.count ≤ a.count) ∧
    (sortByCountDesc (leaderboardEntries cfg g)).Pairwise
      (fun a b => a.count = b.count → isBefore (leaderboardEntries cfg g) a b) ∧
    (getLeaderboard cfg g = .empty ↔ leaderboardEntries cfg g = []) ∧
    (leaderboardEntries cfg g ≠ [] →
      getLeaderboard cfg g = .board (sortByCountDesc (leaderboardEntries cfg g))) := by
  refine ⟨?_, ?_, ?_, ?_, ?_, ?_⟩
  · exact entriesOver_self cfg g.roles h
  · exact sortedBy_perm _ _
  · have hp := sortedBy_pairwise (fun a b : LeaderboardEntry => decide (b.count ≤ a.count))
      (fun a b => (Nat.le_total b.count a.count).imp decide_eq_true decide_eq_true)
      (fun a b c h1 h2 =>
        decide_eq_true (Nat.le_trans (of_decide_eq_true h2) (of_decide_eq_true h1)))
      (leaderboardEntries cfg g)
    exact hp.imp (fun hab => of_decide_eq_true hab)
  · have hp := sortedBy_stable (fun a b : LeaderboardEntry => decide (b.count ≤ a.count))
      (isBefore (leaderboardEntries cfg g)) (leaderboardEntries cfg g)
      (pairwise_isBefore _)
    refine hp.imp ?_
    intro a b hab hc
    exact hab (decide_eq_true (Nat.le_of_eq hc.symm)) (decide_eq_true (Nat.le_of_eq hc))
  · by_cases hb : leaderboardEntries cfg g = [] <;> simp [getLeaderboard, hb]
  · intro hne
    simp [getLeaderboard, hne]

def cfgLbW : RoleConfig := ⟨["A", "B", "C"], 1, 9⟩

def gLbW : GuildState :=
  ⟨[⟨"A", 1, [7]⟩, ⟨"B", 1, [5, 6]⟩, ⟨"C", 1, [9]⟩, ⟨"D", 1, [4]⟩, ⟨"E", 1, []⟩]⟩

theorem getLeaderboard_spec_witness :
    leaderboardEntries cfgLbW gLbW =
      (gLbW.roles.filter (fun r =>
        cfgLbW.whitelist.contains r.name && decide (0 < r.members.length))).map
        (fun r => { role := r.name, count := r.members.length }) ∧
    (sortByCountDesc (leaderboardEntries cfgLbW gLbW)).Perm
      (leaderboardEntries cfgLbW gLbW) ∧
    (sortByCountDesc (leaderboardEntries cfgLbW gLbW)).Pairwise
      (fun a b => b.count ≤ a.count) ∧
    (sortByCountDesc (leaderboardEntries cfgLbW gLbW)).Pairwise
      (fun a b => a.count = b.count → isBefore (leaderboardEntries cfgLbW gLbW) a b) ∧
    (getLeaderboard cfgLbW gLbW = .empty ↔ leaderboardEntries cfgLbW gLbW = []) ∧
    (leaderboardEntries cfgLbW gLbW ≠ [] →
      getLeaderboard cfgLbW gLbW =
        .board (sortByCountDesc (leaderboardEntries cfgLbW gLbW))) :=
  getLeaderboard_spec cfgLbW gLbW (by decide)

/-! ### Pagination lemmas -/

theorem pyGet_nat (wl : List String) (n : Nat) : pyGet wl n = wl[n]? := by
  simp [pyGet]

theorem pyGet_mem (wl : List String) (i : Int) (s : String) (h : pyGet wl i = some s) :
    s ∈ wl := by
  unfold pyGet at h
  split at h
  · obtain ⟨hi, rfl⟩ := List.getElem?_eq_some.mp h
    exact List.getElem_mem hi
  · split at h
    · obtain ⟨hi, rfl⟩ := List.getElem?_eq_some.mp h
      exact List.getElem_mem hi
    · simp at h

theorem menuBodyAux_value_mem (wl : List String) (c : Nat) :
    ∀ (i : Int) (v : String), v ∈ (menuBodyAux wl i c).1.map MenuOption.value →
      v ∈ wl := by
  induction c with
  | zero =>
    intro i v h
    simp [menuBodyAux] at h
  | succ c ih =>
    intro i v h
    unfold menuBodyAux at h
    cases hp : pyGet wl i with
    | none =>
      rw [hp] at h
      exact ih (i + 1) v h
    | some role =>
      rw [hp] at h
      simp only [List.map_cons, List.mem_cons] at h
      rcases h with h | h
      · exact h ▸ pyGet_mem wl i role hp
      · exact ih (i + 1) v h

theorem menuBodyAux_values (wl : List String) (c : Nat) :
    ∀ n : Nat, (menuBodyAux wl (n : Int) c).1.map MenuOption.value =
      (wl.drop n).take c := by
  induction c with
  | zero =>
    intro n
    simp [menuBodyAux]
  | succ c ih =>
    intro n
    have hcast : ((n : Int)) + 1 = (((n + 1 : Nat)) : Int) := by push_cast; ring
    cases hx : wl[n]? with
    | none =>
      have hlen : wl.length ≤ n := List.getElem?_eq_none_iff.mp hx
      simp only [menuBodyAux, pyGet_nat, hx, hcast, ih (n + 1)]
      rw [List.drop_eq_nil_of_le hlen, List.drop_eq_nil_of_le (by omega)]
      simp
    | some role =>
      obtain ⟨hn, hEq⟩ := List.getElem?_eq_some.mp hx
      simp only [menuBodyAux, pyGet_nat, hx, hcast, List.map_cons, ih (n + 1)]
      rw [List.drop_eq_getElem_cons hn, List.take_succ_cons, hEq]

theorem menuBodyAux_flag (wl : List String) (c : Nat) :
    ∀ n : Nat, (menuBodyAux wl (n : Int) c).2 =
      decide (0 < c ∧ wl.length < n + c) := by
  induction c with
  | zero =>
    intro n
    simp [menuBodyAux]
  | succ c ih =>
    intro n
    have hcast : ((n : Int)) + 1 = (((n + 1 : Nat)) : Int) := by push_cast; ring
    cases hx : wl[n]? with
    | none =>
      have hlen : wl.length ≤ n := List.getElem?_eq_none_iff.mp hx
      simp only [menuBodyAux, pyGet_nat, hx, hcast, ih (n + 1)]
      rw [eq_comm, decide_eq_true_eq]
      omega
    | some role =>
      have hn : n < wl.length := (List.getElem?_eq_some.mp hx).1
      simp only [menuBodyAux, pyGet_nat, hx, hcast, ih (n + 1)]
      rw [decide_eq_decide]
      omega

theorem regenerateMenu_mem_cases (wl : List String) (i : Int) (o : MenuOption)
    (h : o ∈ regenerateMenu wl i) :
    o = noOptionsAvailable ∨ (0 < i ∧ o = previousPageOption) ∨
    o ∈ (menuBody wl i).1 ∨ ((menuBody wl i).2 = false ∧ o = nextPageOption) := by
  simp only [regenerateMenu] at h
  by_cases hb : (menuBody wl i).2 = true
  all_goals by_cases hi : 0 < i
  all_goals by_cases h0 : (wl.length == 0) = true
  all_goals first
    | (rw [if_pos hb, if_pos hi, if_pos h0] at h
       rcases List.mem_append.mp h with hm | hm
       · rcases List.mem_append.mp hm with hm2 | hm2
         · exact Or.inl (by simpa using hm2)
         · exact Or.inr (Or.inl ⟨hi, by simpa using hm2⟩)
       · exact Or.inr (Or.inr (Or.inl hm)))
    | (rw [if_pos hb, if_pos hi, if_neg h0] at h
       rcases List.mem_append.mp h with hm | hm
       · rcases List.mem_append.mp hm with hm2 | hm2
         · exact absurd hm2 (List.not_mem_nil o)
         · exact Or.inr (Or.inl ⟨hi, by simpa using hm2⟩)
       · exact Or.inr (Or.inr (Or.inl hm)))
    | (rw [if_pos hb, if_neg hi, if_pos h0] at h
       rcases List.mem_append.mp h with hm | hm
       · exact Or.inl (by simpa using hm)
       · exact Or.inr (Or.inr (Or.inl hm)))
    | (rw [if_pos hb, if_neg hi, if_neg h0] at h
       rcases List.mem_append.mp h with hm | hm
       · exact absurd hm (List.not_mem_nil o)
       · exact Or.inr (Or.inr (Or.inl hm)))
    | (rw [if_neg hb, if_pos hi, if_pos h0] at h
       have hbf : (menuBody wl i).2 = false := Bool.eq_false_iff.mpr hb
       rcases List.mem_append.mp h with hm | hm
       · rcases List.mem_append.mp hm with hm2 | hm2
         · rcases List.mem_append.mp hm2 with hm3 | hm3
           · exact Or.inl (by simpa using hm3)
           · exact Or.inr (Or.inl ⟨hi, by simpa using hm3⟩)
         · exact Or.inr (Or.inr (Or.inl hm2))
       · exact Or.inr (Or.inr (Or.inr ⟨hbf, by simpa using hm⟩)))
    | (rw [if_neg hb, if_pos hi, if_neg h0] at h
       have hbf : (menuBody wl i).2 = false := Bool.eq_false_iff.mpr hb
       rcases List.mem_append.mp h with hm | hm
       · rcases List.mem_append.mp hm with hm2 | hm2
         · rcases List.mem_append.mp hm2 with hm3 | hm3
           · exact absurd hm3 (List.not_mem_nil o)
           · exact Or.inr (Or.inl ⟨hi, by simpa using hm3⟩)
         · exact Or.inr (Or.inr (Or.inl hm2))
       · exact Or.inr (Or.inr (Or.inr ⟨hbf, by simpa using hm⟩)))
    | (rw [if_neg hb, if_neg hi, if_pos h0] at h
       have hbf : (menuBody wl i).2 = false := Bool.eq_false_iff.mpr hb
       rcases List.mem_append.mp h with hm | hm
       · rcases List.mem_append.mp hm with hm2 | hm2
         · exact Or.inl (by simpa using hm2)
         · exact Or.inr (Or.inr (Or.inl hm2))
       · exact Or.inr (Or.inr (Or.inr ⟨hbf, by simpa using hm⟩)))
    | (rw [if_neg hb, if_neg hi, if_neg h0] at h
       have hbf : (menuBody wl i).2 = false := Bool.eq_false_iff.mpr hb
       rcases List.mem_append.mp h with hm | hm
       · rcases List.mem_append.mp hm with hm2 | hm2
         · exact absurd hm2 (List.not_mem_nil o)
         · exact Or.inr (Or.inr (Or.inl hm2))
       · exact Or.inr (Or.inr (Or.inr ⟨hbf, by simpa using hm⟩)))

theorem prev_mem_regenerate (wl : List String) (i : Int) (hi : 0 < i) :
    previousPageOption ∈ regenerateMenu wl i := by
  simp only [regenerateMenu]
  by_cases h0 : (wl.length == 0) = true <;> by_cases hb : (menuBody wl i).2 = true <;>
    simp [h0, hb, hi, List.mem_append]

theorem next_mem_regenerate (wl : List String) (i : Int)
    (hb : (menuBody wl i).2 = false) : nextPageOption ∈ regenerateMenu wl i := by
  simp only [regenerateMenu]
  simp [hb, List.mem_append]

theorem previous_gate (wl : List String) (i : Int)
    (hres : "Previous Page" ∉ wl)
    (h : (optionValues (regenerateMenu wl i)).contains "Previous Page" = true) :
    0 < i := by
  rw [contains_true_iff] at h
  obtain ⟨o, ho, hov⟩ := List.mem_map.mp h
  rcases regenerateMenu_mem_cases wl i o ho with h1 | ⟨hi, _⟩ | h1 | ⟨_, h1⟩
  · rw [h1] at hov
    exact absurd hov (by decide)
  · exact hi
  · have : "Previous Page" ∈ (menuBody wl i).1.map MenuOption.value :=
      hov ▸ List.mem_map_of_mem MenuOption.value h1
    exact absurd (menuBodyAux_value_mem wl 23 i _ this) hres
  · rw [h1] at hov
    exact absurd hov (by decide)

theorem pages_flatten (m : Nat) :
    ∀ l : List String, l.length ≤ 23 * m →
      ((List.range m).map (fun k => (l.drop (23 * k)).take 23)).flatten = l := by
  induction m with
  | zero =>
    intro l h
    simp only [List.range_zero, List.map_nil, List.flatten_nil]
    exact (List.eq_nil_of_length_eq_zero (Nat.le_zero.mp (by simpa using h))).symm
  | succ m ih =>
    intro l h
    rw [List.range_succ_eq_map, List.map_cons, List.map_map]
    rw [List.flatten_cons]
    have hcomp : ((fun k => (l.drop (23 * k)).take 23) ∘ Nat.succ) =
        (fun k => ((l.drop 23).drop (23 * k)).take 23) := by
      funext k
      simp only [Function.comp_apply, List.drop_drop]
      congr 2
      omega
    rw [hcomp, ih (l.drop 23) (by simp only [List.length_drop]; omega)]
    simp [List.take_append_drop]

theorem next_gate (wl : List String) (i : Int) (hnp : "Next Page" ∉ wl)
    (h : (optionValues (regenerateMenu wl i)).contains "Next Page" = true) :
    (menuBody wl i).2 = false := by
  rw [contains_true_iff] at h
  obtain ⟨o, ho, hov⟩ := List.mem_map.mp h
  rcases regenerateMenu_mem_cases wl i o ho with h1 | ⟨_, h1⟩ | h1 | ⟨hbf, _⟩
  · rw [h1] at hov
    exact absurd hov (by decide)
  · rw [h1] at hov
    exact absurd hov (by decide)
  · have hmm : "Next Page" ∈ (menuBody wl i).1.map MenuOption.value :=
      hov ▸ List.mem_map_of_mem MenuOption.value h1
    exact absurd (menuBodyAux_value_mem wl 23 i _ hmm) hnp
  · exact hbf

/-! ### C8: the page-state invariant -/

-- Counterexample for C8 as stated: with a whitelisted role literally named
-- "Previous Page", selecting its entry on page 1 triggers the PreviousPage
-- branch and drives the index to -23 — a reachable state with a negative
-- index, violating the invariant.
theorem menu_page_invariant_reserved_name :
    MenuReachable ["Previous Page"] (-23) 0 ∧ ((-23 : Int) < 0) := by
  constructor
  · have h0 : MenuReachable ["Previous Page"] 0 1 := MenuReachable.init
    have h1 := MenuReachable.prev h0 (by decide)
    show MenuReachable ["Previous Page"] (0 - 23) (1 - 1)
    exact h1
  · decide

/-- Claim C8 (amended): provided the whitelist contains no role literally
named "Previous Page", the menu-page invariant holds in the initial state and
is preserved by every reachable Next Page / Previous Page transition: the
index is a non-negative multiple of the page size 23 and
`page = index / 23 + 1`.  (With such a reserved name in the whitelist the
invariant is violated: selecting that entry on page 1 makes the index -23.) -/
theorem menu_page_invariant (wl : List String) (i p : Int)
    (hres : "Previous Page" ∉ wl) (hr : MenuReachable wl i p) :
    ∃ k : Nat, i = 23 * (k : Int) ∧ p = (k : Int) + 1 := by
  induction hr with
  | init => exact ⟨0, by simp, by simp⟩
  | next a hgate ih =>
    obtain ⟨k, hk1, hk2⟩ := ih
    exact ⟨k + 1, by push_cast; omega, by push_cast; omega⟩
  | prev a hgate ih =>
    obtain ⟨k, hk1, hk2⟩ := ih
    have hpos := previous_gate wl _ hres hgate
    exact ⟨k - 1, by omega, by omega⟩

def wlPagW : List String := (List.range 24).map (fun n => "p" ++ toString n)

theorem menu_page_invariant_witness :
    ∃ k : Nat, ((23 : Int) = 23 * (k : Int) ∧ (2 : Int) = (k : Int) + 1) :=
  menu_page_invariant wlPagW 23 2 (by decide)
    (MenuReachable.next MenuReachable.init (by decide))

/-! ### C4: pagination of regenerateMenu -/

def wlFull : List String := (List.range 23).map (fun n => "r" ++ toString n)

-- Counterexample for C4 as stated: with exactly 23 entries and index 0 no
-- entry lies beyond the current window, yet a "Next Page" entry is present
-- (the loop saw no IndexError), leading to a page with no selectable entries.
theorem next_page_on_exact_fit :
    (optionValues (regenerateMenu wlFull 0)).contains "Next Page" = true ∧
    wlFull.length = 23 ∧ ¬ ((0 : Int) + 23 < (wlFull.length : Int)) := by decide

/-- Claim C4 (amended): for a stored candidate list and a reachable index
`23 * k` (the whitelist holding no role named "Next Page" / "Previous Page"),
the regenerated options contain a "Previous Page" entry iff `k > 0`, and a
"Next Page" entry iff at least 23 entries remain from the window's start —
which is "entries exist beyond the window" except when exactly 23 remain, where
a Next Page entry still appears and leads to a page with no selectable
entries.  The window holds entries `23k` to `23k+22` of the stored list, every
entry appears on exactly one page (the concatenation of all `ceil(N/23)`
windows is the stored list), a page has a selectable entry iff `23k < N`, and
the stored list is the lexicographically sorted permutation of the configured
whitelist. -/
theorem pagination_characterisation (wl : List String) (k i : Nat)
    (hnp : "Next Page" ∉ wl) (hpp : "Previous Page" ∉ wl) :
    ((optionValues (regenerateMenu wl (23 * k : Nat))).contains "Previous Page" = true ↔
      0 < k) ∧
    ((optionValues (regenerateMenu wl (23 * k : Nat))).contains "Next Page" = true ↔
      23 * (k + 1) ≤ wl.length) ∧
    ((menuBody wl (23 * k : Nat)).1.map MenuOption.value = (wl.drop (23 * k)).take 23) ∧
    ((menuBody wl (23 * k : Nat)).1 ≠ [] ↔ 23 * k < wl.length) ∧
    (i < wl.length →
      ((menuBody wl (23 * (i / 23) : Nat)).1.map MenuOption.value)[i % 23]? = wl[i]?) ∧
    (((List.range ((wl.length + 22) / 23)).map
        (fun j => (menuBody wl (23 * j : Nat)).1.map MenuOption.value)).flatten = wl) ∧
    (mkRoleMenu wl).whitelist = sortStrings wl ∧
    (sortStrings wl).Pairwise (fun a b => strLe a b = true) ∧
    (sortStrings wl).Perm wl := by
  have hvals : ∀ j : Nat, (menuBody wl (23 * j : Nat)).1.map MenuOption.value =
      (wl.drop (23 * j)).take 23 := fun j => menuBodyAux_values wl 23 (23 * j)
  refine ⟨?_, ?_, ?_, ?_, ?_, ?_, rfl, ?_, ?_⟩
  · constructor
    · intro h
      have h2 := previous_gate wl _ hpp h
      omega
    · intro hk
      apply (contains_true_iff _ _).mpr
      have hi : 0 < ((23 * k : Nat) : Int) := by omega
      exact List.mem_map_of_mem MenuOption.value (prev_mem_regenerate wl _ hi)
  · constructor
    · intro h
      have hbf := next_gate wl _ hnp h
      rw [menuBody, menuBodyAux_flag wl 23 (23 * k)] at hbf
      have hnot := decide_eq_false_iff_not.mp hbf
      omega
    · intro hlen
      apply (contains_true_iff _ _).mpr
      have hbf : (menuBody wl (23 * k : Nat)).2 = false := by
        rw [menuBody, menuBodyAux_flag wl 23 (23 * k)]
        exact decide_eq_false (by omega)
      exact List.mem_map_of_mem MenuOption.value (next_mem_regenerate wl _ hbf)
  · exact hvals k
  · constructor
    · intro hne
      by_contra hc
      have hdrop : wl.drop (23 * k) = [] := List.drop_eq_nil_of_le (by omega)
      have hv := hvals k
      rw [hdrop] at hv
      simp only [List.take_nil] at hv
      exact hne (List.map_eq_nil_iff.mp hv)
    · intro hlt hnil
      have hv := hvals k
      rw [hnil] at hv
      simp only [List.map_nil] at hv
      rcases List.take_eq_nil_iff.mp hv.symm with h23 | hdrop
      · exact absurd h23 (by norm_num)
      · have := List.drop_eq_nil_iff.mp hdrop
        omega
  · intro hi
    rw [hvals (i / 23), List.getElem?_take, if_pos (Nat.mod_lt i (by norm_num)),
      List.getElem?_drop]
    have hidx : 23 * (i / 23) + i % 23 = i := Nat.div_add_mod i 23
    rw [hidx]
  · simp only [hvals]
    exact pages_flatten _ wl (by omega)
  · exact sortedBy_pairwise strLe strLe_total strLe_trans wl
  · exact sortedBy_perm strLe wl

def wlPagC4 : List String := ["a", "b"]

theorem pagination_characterisation_witness :
    ((optionValues (regenerateMenu wlPagC4 (23 * 0 : Nat))).contains "Previous Page" = true ↔
      0 < 0) ∧
    ((optionValues (regenerateMenu wlPagC4 (23 * 0 : Nat))).contains "Next Page" = true ↔
      23 * (0 + 1) ≤ wlPagC4.length) ∧
    ((menuBody wlPagC4 (23 * 0 : Nat)).1.map MenuOption.value =
      (wlPagC4.drop (23 * 0)).take 23) ∧
    ((menuBody wlPagC4 (23 * 0 : Nat)).1 ≠ [] ↔ 23 * 0 < wlPagC4.length) ∧
    (1 < wlPagC4.length →
      ((menuBody wlPagC4 (23 * (1 / 23) : Nat)).1.map MenuOption.value)[1 % 23]? =
        wlPagC4[1]?) ∧
    (((List.range ((wlPagC4.length + 22) / 23)).map
        (fun j => (menuBody wlPagC4 (23 * j : Nat)).1.map MenuOption.value)).flatten =
      wlPagC4) ∧
    (mkRoleMenu wlPagC4).whitelist = sortStrings wlPagC4 ∧
    (sortStrings wlPagC4).Pairwise (fun a b => strLe a b = true) ∧
    (sortStrings wlPagC4).Perm wlPagC4 :=
  pagination_characterisation wlPagC4 0 1 (by decide) (by decide)

end Discox
